import Mathlib

/-!
Shallow embedding of `src/train/.ipynb_checkpoints/train-checkpoint.py`.

The script is a one-shot batch runner:

  print banner lines
  parse `--input_data` / `--output_train` (both optional strings)
  print both argument values
  if output_train is not None: os.makedirs(output_train, exist_ok=True); print "%s created"
  print "read data from the given input_data, %s" % args.input_data
  input_path = os.path.join(args.input_data)        -- TypeError when None
  df = pd.read_csv(input_path)
  df["num"] += 1                                    -- KeyError when column absent
  output_path = os.path.join(args.input_data)       -- NOTE: the input path
  print "write data to the output_data, %s" % output_path
  df.to_csv(output_path, index=False)
  print "training is done"

Modelling choices:
* A CSV file is represented pre-tokenised as a grid `List (List CField)`;
  a `CField` is either an int64 cell (what pandas type-inference turns an
  integer literal into — numpy int64, whose `+ 1` wraps at `2^63 - 1`) or
  arbitrary other text.  Textual quirks such as leading zeroes, floats,
  out-of-int64-range literals and duplicate-header mangling are out of model.
* The filesystem is a map from path to optional file plus a set of
  existing directories.  Permission failures are out of model
  (`os.makedirs(..., exist_ok=True)` is total here).
* The run is instrumented with an event trace recording each printed line
  and each filesystem action, in program order, so that temporal claims
  (what is printed before which action) are statable.
* Unhandled Python exceptions are modelled by `Except PyError`; once an
  error is raised the remaining statements do not execute and the
  filesystem state reached so far is returned.
-/

/-- One CSV field after pandas type inference: an int64 cell (pandas stores an
integer column as numpy int64; integer literals beyond the int64 range fall
back to object dtype and are out of model) or other text. -/
inductive CField where
  | int (n : Int)
  | str (s : String)
deriving DecidableEq, Repr

/-- Signed 64-bit (numpy int64) arithmetic: wrap the value into
`[-2^63, 2^63)`, the way numpy silently overflows. -/
def wrap64 (n : Int) : Int := (n + 2 ^ 63) % 2 ^ 64 - 2 ^ 63

/-- The contents of a CSV file: a grid of fields; the first row is the header row. -/
abbrev CSVFile := List (List CField)

/-- Textual rendering of a field, as `df.to_csv` would print it. -/
def showField : CField → String
  | .int n => toString n
  | .str s => s

/-- An in-memory pandas DataFrame: ordered column names and the data rows. -/
structure Table where
  header : List String
  rows : List (List CField)
deriving DecidableEq, Repr

/-- The Python exceptions the script can die with (all unhandled). -/
inductive PyError where
  | typeError
  | keyError
  | fileNotFound
  | emptyData
  | parseError
  | indexError
deriving DecidableEq, Repr

/-- Filesystem state: files by path, and the set of existing directories. -/
structure FS where
  files : String → Option CSVFile
  dirs : List String

/-- `os.makedirs(d, exist_ok=True)`: creates `d` if missing, never fails,
never touches any file. -/
def makedirs (d : String) (fs : FS) : FS :=
  if d ∈ fs.dirs then fs else { files := fs.files, dirs := d :: fs.dirs }

/-- Writing file contents `c` at path `p` (what `df.to_csv(p, ...)` does to disk). -/
def setFile (p : String) (c : CSVFile) (fs : FS) : FS :=
  { files := fun q => if q = p then some c else fs.files q, dirs := fs.dirs }

/-- `os.path.join` applied to the single component `args.input_data`:
the identity on a string, a `TypeError` on `None`. -/
def joinPath : Option String → Except PyError String
  | none => .error .typeError
  | some s => .ok s

/-- `pd.read_csv` on file contents: the first row becomes the column names,
the remaining rows the data.  An empty file raises; a ragged grid raises. -/
def parseCsv : CSVFile → Except PyError Table
  | [] => .error .emptyData
  | h :: rs =>
      if rs.all (fun r => r.length == h.length) then
        .ok { header := h.map showField, rows := rs }
      else .error .parseError

/-- `pd.read_csv(path)`: look the file up, then parse it. -/
def readCsv (fs : FS) (p : String) : Except PyError Table :=
  match fs.files p with
  | none => .error .fileNotFound
  | some f => parseCsv f

/-- Position of a column name in the header (leftmost match). -/
def colIdx (a : String) : List String → Option Nat
  | [] => none
  | h :: t => if h = a then some 0 else (colIdx a t).map (· + 1)

/-- The column update of `df["num"] += 1` applied row by row at column `i`:
an int64 cell is incremented with int64 wrap-around (numpy int64 addition
overflows silently, so `2^63 - 1` becomes `-2^63`), a text cell raises
`TypeError`. -/
def incRows (i : Nat) : List (List CField) → Except PyError (List (List CField))
  | [] => .ok []
  | r :: rs =>
    match r[i]? with
    | some (CField.int n) =>
        match incRows i rs with
        | .ok rs' => .ok (r.set i (CField.int (wrap64 (n + 1))) :: rs')
        | .error e => .error e
    | some (CField.str _) => .error .typeError
    | none => .error .indexError

/-- `df["num"] += 1`: `KeyError` when no column is named `num`, otherwise
increment that column in every row. -/
def incrementNum (t : Table) : Except PyError Table :=
  match colIdx "num" t.header with
  | none => .error .keyError
  | some i =>
    match incRows i t.rows with
    | .ok rs => .ok { header := t.header, rows := rs }
    | .error e => .error e

/-- `df.to_csv(_, index)` rendered back to a grid: with `index := true` a
leading unnamed column holding the row index is added; with `index := false`
(the call the script makes) the grid is exactly header plus rows. -/
def to_csv (t : Table) (index : Bool) : CSVFile :=
  if index then
    (CField.str "" :: t.header.map CField.str) ::
      t.rows.enum.map (fun p => CField.int (p.1 : Int) :: p.2)
  else
    t.header.map CField.str :: t.rows

/-- Observable events of one run, in program order. -/
inductive Ev where
  | out (s : String)
  | mkdir (p : String)
  | readF (p : String)
  | writeF (p : String)
deriving DecidableEq, Repr

/-- The two parsed command-line arguments (`argparse` defaults both to `None`). -/
structure Args where
  input_data : Option String
  output_train : Option String

/-- Python `"%s" % x` for an optional string: `None` prints as `"None"`. -/
def fmtOpt : Option String → String
  | none => "None"
  | some s => s

/-- The four unconditional prints before the directory step. -/
def banner (args : Args) : List Ev :=
  [.out "In train.py",
   .out "As a data scientist, this is where I use my training code.",
   .out ("Argument 1: " ++ fmtOpt args.input_data),
   .out ("Argument 2: " ++ fmtOpt args.output_train)]

/-- Events of the directory step: skipped when `output_train` is `None`;
otherwise `os.makedirs` acts first and the confirmation prints second. -/
def dirTrace (args : Args) : List Ev :=
  match args.output_train with
  | none => []
  | some d => [.mkdir d, .out (d ++ " created")]

/-- Filesystem effect of the directory step. -/
def dirFS (args : Args) (fs : FS) : FS :=
  match args.output_train with
  | none => fs
  | some d => makedirs d fs

/-- The read-phase status line. -/
def readMsg (i : Option String) : String :=
  "read data from the given input_data, " ++ fmtOpt i

/-- The write-phase status line. -/
def writeMsg (p : String) : String :=
  "write data to the output_data, " ++ p

/-- Equality of `Except` values is decidable when it is on both sides. -/
instance {ε α : Type} [DecidableEq ε] [DecidableEq α] : DecidableEq (Except ε α)
  | .error e, .error e' =>
      if h : e = e' then .isTrue (by rw [h]) else .isFalse (by simp [h])
  | .error _, .ok _ => .isFalse (by simp)
  | .ok _, .error _ => .isFalse (by simp)
  | .ok a, .ok b =>
      if h : a = b then .isTrue (by rw [h]) else .isFalse (by simp [h])

/-- Result of one run: the event trace, the final filesystem, and either
normal completion or the uncaught exception. -/
structure RunResult where
  trace : List Ev
  fs : FS
  outcome : Except PyError Unit

/-- The part of the script from the read-phase print to the end, executed on
the filesystem left by the directory step. -/
def processPhase (args : Args) (fs : FS) : RunResult :=
  match joinPath args.input_data with
  | .error e => ⟨[.out (readMsg args.input_data)], fs, .error e⟩
  | .ok input_path =>
    match readCsv fs input_path with
    | .error e => ⟨[.out (readMsg args.input_data)], fs, .error e⟩
    | .ok df =>
      match incrementNum df with
      | .error e => ⟨[.out (readMsg args.input_data), .readF input_path], fs, .error e⟩
      | .ok df' =>
        match joinPath args.input_data with
        | .error e => ⟨[.out (readMsg args.input_data), .readF input_path], fs, .error e⟩
        | .ok output_path =>
          ⟨[.out (readMsg args.input_data), .readF input_path,
            .out (writeMsg output_path), .writeF output_path, .out "training is done"],
           setFile output_path (to_csv df' false) fs, .ok ()⟩

/-- One full run of the script on parsed arguments and a filesystem. -/
def run (args : Args) (fs : FS) : RunResult :=
  let r := processPhase args (dirFS args fs)
  ⟨banner args ++ dirTrace args ++ r.trace, r.fs, r.outcome⟩

/-- The printed lines of a trace, in order. -/
def outs (t : List Ev) : List String :=
  t.filterMap fun e => match e with | .out s => some s | _ => none

/-- How many lines a trace printed. -/
def countOuts (t : List Ev) : Nat :=
  (outs t).length

/-- The last line printed, if any. -/
def lastOut (t : List Ev) : Option String :=
  (outs t).getLast?

/-! ### Basic lemmas about the embedding -/

theorem run_trace (args : Args) (fs : FS) :
    (run args fs).trace =
      banner args ++ dirTrace args ++ (processPhase args (dirFS args fs)).trace := rfl

theorem run_fs (args : Args) (fs : FS) :
    (run args fs).fs = (processPhase args (dirFS args fs)).fs := rfl

theorem run_outcome (args : Args) (fs : FS) :
    (run args fs).outcome = (processPhase args (dirFS args fs)).outcome := rfl

theorem dirFS_files (args : Args) (fs : FS) : (dirFS args fs).files = fs.files := by
  cases h : args.output_train with
  | none => simp [dirFS, h]
  | some d =>
    simp only [dirFS, h, makedirs]
    split <;> rfl

theorem mem_dirs_makedirs (d : String) (fs : FS) : d ∈ (makedirs d fs).dirs := by
  unfold makedirs
  split
  · assumption
  · exact List.mem_cons_self d fs.dirs

theorem setFile_dirs (p : String) (c : CSVFile) (fs : FS) :
    (setFile p c fs).dirs = fs.dirs := rfl

theorem processPhase_noInput (args : Args) (fs : FS) (h : args.input_data = none) :
    processPhase args fs = ⟨[.out (readMsg args.input_data)], fs, .error .typeError⟩ := by
  simp [processPhase, joinPath, h]

theorem processPhase_readErr (args : Args) (fs : FS) (p : String) (e : PyError)
    (hp : args.input_data = some p) (hr : readCsv fs p = .error e) :
    processPhase args fs = ⟨[.out (readMsg args.input_data)], fs, .error e⟩ := by
  simp [processPhase, joinPath, hp, hr]

theorem processPhase_incErr (args : Args) (fs : FS) (p : String) (t : Table) (e : PyError)
    (hp : args.input_data = some p) (hr : readCsv fs p = .ok t)
    (hi : incrementNum t = .error e) :
    processPhase args fs =
      ⟨[.out (readMsg args.input_data), .readF p], fs, .error e⟩ := by
  simp [processPhase, joinPath, hp, hr, hi]

theorem processPhase_ok (args : Args) (fs : FS) (p : String) (t t' : Table)
    (hp : args.input_data = some p) (hr : readCsv fs p = .ok t)
    (hi : incrementNum t = .ok t') :
    processPhase args fs =
      ⟨[.out (readMsg args.input_data), .readF p, .out (writeMsg p), .writeF p,
        .out "training is done"],
       setFile p (to_csv t' false) fs, .ok ()⟩ := by
  simp [processPhase, joinPath, hp, hr, hi]

theorem colIdx_eq_none (a : String) (l : List String) : colIdx a l = none ↔ a ∉ l := by
  induction l with
  | nil => simp [colIdx]
  | cons h t ih =>
    by_cases hh : h = a
    · subst hh
      simp [colIdx]
    · simp only [colIdx, if_neg hh, Option.map_eq_none', ih, List.mem_cons]
      constructor
      · rintro hna (rfl | hm)
        · exact hh rfl
        · exact hna hm
      · exact fun hn hm => hn (Or.inr hm)

theorem map_showField_str (names : List String) :
    (names.map CField.str).map showField = names := by
  induction names with
  | nil => rfl
  | cons a t ih => simp [showField, ih]

theorem getElem?_some_lt {α : Type} {l : List α} {i : Nat} {a : α}
    (h : l[i]? = some a) : i < l.length :=
  (List.getElem?_eq_some.mp h).1

theorem parseCsv_ok (hrow : List CField) (rs : List (List CField))
    (h : ∀ r ∈ rs, r.length = hrow.length) :
    parseCsv (hrow :: rs) = .ok ⟨hrow.map showField, rs⟩ := by
  have : rs.all (fun r => r.length == hrow.length) = true :=
    List.all_eq_true.mpr fun r hr => beq_iff_eq.mpr (h r hr)
  simp [parseCsv, this]

theorem parseCsv_err (hrow : List CField) (rs : List (List CField))
    (h : ¬ ∀ r ∈ rs, r.length = hrow.length) :
    parseCsv (hrow :: rs) = .error .parseError := by
  have hf : rs.all (fun r => r.length == hrow.length) = false := by
    rw [← Bool.not_eq_true]
    intro hb
    exact h fun r hr => beq_iff_eq.mp (List.all_eq_true.mp hb r hr)
  simp [parseCsv, hf]

theorem parseCsv_ok_inv (f : CSVFile) (t : Table) (h : parseCsv f = .ok t) :
    ∃ hrow rs, f = hrow :: rs ∧ t = ⟨hrow.map showField, rs⟩ ∧
      ∀ r ∈ rs, r.length = hrow.length := by
  cases f with
  | nil => simp [parseCsv] at h
  | cons hrow rs =>
    by_cases hall : ∀ r ∈ rs, r.length = hrow.length
    · refine ⟨hrow, rs, rfl, ?_, hall⟩
      rw [parseCsv_ok hrow rs hall] at h
      exact (Except.ok.inj h).symm
    · rw [parseCsv_err hrow rs hall] at h
      exact absurd h (by simp)

theorem readCsv_ok_inv (fs : FS) (p : String) (t : Table) (h : readCsv fs p = .ok t) :
    ∃ f, fs.files p = some f ∧ parseCsv f = .ok t := by
  unfold readCsv at h
  split at h
  · simp at h
  · next f hf => exact ⟨f, hf, h⟩

theorem incRows_isOk (i : Nat) (rows : List (List CField))
    (h : ∀ r ∈ rows, ∃ n, r[i]? = some (CField.int n)) :
    ∃ rows', incRows i rows = .ok rows' := by
  induction rows with
  | nil => exact ⟨[], rfl⟩
  | cons r rs ih =>
    obtain ⟨n, hn⟩ := h r (List.mem_cons_self r rs)
    obtain ⟨rs', hrs⟩ := ih (fun r' hr' => h r' (List.mem_cons_of_mem _ hr'))
    exact ⟨r.set i (CField.int (wrap64 (n + 1))) :: rs', by simp [incRows, hn, hrs]⟩

theorem incRows_forall₂ (i : Nat) (rows rows' : List (List CField))
    (h : incRows i rows = .ok rows') :
    List.Forall₂
      (fun r r' =>
        ∃ n, r[i]? = some (CField.int n) ∧ r' = r.set i (CField.int (wrap64 (n + 1))))
      rows rows' := by
  induction rows generalizing rows' with
  | nil =>
    simp [incRows] at h
    subst h
    exact List.Forall₂.nil
  | cons r rs ih =>
    rcases hg : r[i]? with _ | f
    · simp [incRows, hg] at h
    · cases f with
      | str s => simp [incRows, hg] at h
      | int n =>
        rcases hrec : incRows i rs with e | rs₀
        · simp [incRows, hg, hrec] at h
        · simp only [incRows, hg, hrec] at h
          rw [← Except.ok.inj h]
          exact List.Forall₂.cons ⟨n, hg, rfl⟩ (ih rs₀ hrec)

theorem incrementNum_ok (t : Table) (i : Nat) (rs : List (List CField))
    (hi : colIdx "num" t.header = some i) (hr : incRows i t.rows = .ok rs) :
    incrementNum t = .ok ⟨t.header, rs⟩ := by
  simp [incrementNum, hi, hr]

theorem incrementNum_keyErr (t : Table) (h : colIdx "num" t.header = none) :
    incrementNum t = .error .keyError := by
  simp [incrementNum, h]

theorem incrementNum_ok_inv (t t' : Table) (h : incrementNum t = .ok t') :
    ∃ i rs, colIdx "num" t.header = some i ∧ incRows i t.rows = .ok rs ∧
      t' = ⟨t.header, rs⟩ := by
  unfold incrementNum at h
  split at h
  · simp at h
  · next i hi =>
    split at h
    · next rs hr => exact ⟨i, rs, hi, hr, (Except.ok.inj h).symm⟩
    · simp at h

theorem dirFS_files_at (args : Args) (fs : FS) (p : String) :
    (dirFS args fs).files p = fs.files p :=
  congrFun (dirFS_files args fs) p

theorem processPhase_ok_inv (args : Args) (fs : FS)
    (h : (processPhase args fs).outcome = .ok ()) :
    ∃ p t t', args.input_data = some p ∧ readCsv fs p = .ok t ∧ incrementNum t = .ok t' ∧
      processPhase args fs =
        ⟨[.out (readMsg args.input_data), .readF p, .out (writeMsg p), .writeF p,
          .out "training is done"],
         setFile p (to_csv t' false) fs, .ok ()⟩ := by
  cases hp : args.input_data with
  | none =>
    rw [processPhase_noInput args fs hp] at h
    simp at h
  | some p =>
    rcases hr : readCsv fs p with e | t
    · rw [processPhase_readErr args fs p e hp hr] at h
      simp at h
    · rcases hi : incrementNum t with e | t'
      · rw [processPhase_incErr args fs p t e hp hr hi] at h
        simp at h
      · refine ⟨p, t, t', rfl, hr, hi, ?_⟩
        rw [processPhase_ok args fs p t t' hp hr hi, hp]

theorem processPhase_trace_shape (args : Args) (fs : FS) :
    (processPhase args fs).trace = [.out (readMsg args.input_data)] ∨
    (∃ p, args.input_data = some p ∧
      (processPhase args fs).trace = [.out (readMsg args.input_data), .readF p]) ∨
    (∃ p, args.input_data = some p ∧
      (processPhase args fs).trace =
        [.out (readMsg args.input_data), .readF p, .out (writeMsg p), .writeF p,
         .out "training is done"]) := by
  cases hp : args.input_data with
  | none => exact Or.inl (by rw [processPhase_noInput args fs hp, hp])
  | some p =>
    rcases hr : readCsv fs p with e' | t
    · exact Or.inl (by rw [processPhase_readErr args fs p e' hp hr, hp])
    · rcases hi : incrementNum t with e' | t'
      · exact Or.inr (Or.inl
          ⟨p, rfl, by rw [processPhase_incErr args fs p t e' hp hr hi, hp]⟩)
      · exact Or.inr (Or.inr
          ⟨p, rfl, by rw [processPhase_ok args fs p t t' hp hr hi, hp]⟩)

theorem readF_not_mem_front (args : Args) (p : String) :
    Ev.readF p ∉ banner args ++ dirTrace args := by
  cases h : args.output_train <;> simp [banner, dirTrace, h]

theorem writeF_not_mem_front (args : Args) (p : String) :
    Ev.writeF p ∉ banner args ++ dirTrace args := by
  cases h : args.output_train <;> simp [banner, dirTrace, h]

theorem processPhase_dirs (args : Args) (fs : FS) :
    (processPhase args fs).fs.dirs = fs.dirs := by
  cases hp : args.input_data with
  | none => rw [processPhase_noInput args fs hp]
  | some p =>
    rcases hr : readCsv fs p with e | t
    · rw [processPhase_readErr args fs p e hp hr]
    · rcases hi : incrementNum t with e | t'
      · rw [processPhase_incErr args fs p t e hp hr hi]
      · rw [processPhase_ok args fs p t t' hp hr hi]
        exact setFile_dirs p (to_csv t' false) fs

theorem readMsg_mem_processPhase (args : Args) (fs : FS) :
    Ev.out (readMsg args.input_data) ∈ (processPhase args fs).trace := by
  cases hp : args.input_data with
  | none => rw [processPhase_noInput args fs hp]; simp [hp]
  | some p =>
    rcases hr : readCsv fs p with e | t
    · rw [processPhase_readErr args fs p e hp hr]; simp [hp]
    · rcases hi : incrementNum t with e | t'
      · rw [processPhase_incErr args fs p t e hp hr hi]; simp [hp]
      · rw [processPhase_ok args fs p t t' hp hr hi]; simp [hp]

theorem mkdir_not_mem_processPhase (args : Args) (fs : FS) (d : String) :
    Ev.mkdir d ∉ (processPhase args fs).trace := by
  cases hp : args.input_data with
  | none => rw [processPhase_noInput args fs hp]; simp
  | some p =>
    rcases hr : readCsv fs p with e | t
    · rw [processPhase_readErr args fs p e hp hr]; simp
    · rcases hi : incrementNum t with e | t'
      · rw [processPhase_incErr args fs p t e hp hr hi]; simp
      · rw [processPhase_ok args fs p t t' hp hr hi]; simp

theorem forall₂_mem_right {α β : Type} {R : α → β → Prop} {l : List α} {l' : List β}
    (h : List.Forall₂ R l l') : ∀ b ∈ l', ∃ a ∈ l, R a b := by
  induction h with
  | nil => intro b hb; exact absurd hb (List.not_mem_nil b)
  | @cons a b l₁ l₂ hr _ ih =>
    intro b' hb'
    rcases List.mem_cons.mp hb' with rfl | hb2
    · exact ⟨a, List.mem_cons_self a l₁, hr⟩
    · obtain ⟨a', ha', hab⟩ := ih b' hb2
      exact ⟨a', List.mem_cons_of_mem _ ha', hab⟩

theorem lastOut_append_out (t1 : List Ev) (s : String) :
    lastOut (t1 ++ [Ev.out s]) = some s := by
  unfold lastOut outs
  rw [List.filterMap_append]
  rw [List.getLast?_append_of_ne_nil _ (by simp)]
  rfl


/-! ### Concrete sample inputs used by witnesses -/

/-- The concrete scenario of the spec with an extra text column. -/
def sampleCsv : CSVFile :=
  [[CField.str "id", CField.str "num"],
   [CField.str "a", CField.int 10],
   [CField.str "b", CField.int 20]]

/-- A filesystem holding `sampleCsv` at `"data.csv"`; `"outdir"` already exists. -/
def sampleFS : FS :=
  ⟨fun q => if q = "data.csv" then some sampleCsv else none, ["outdir"]⟩

/-- A second filesystem holding the sample file, with a different directory
state than `sampleFS`. -/
def sampleFS2 : FS :=
  ⟨fun q => if q = "data.csv" then some sampleCsv else none, []⟩

/-- A filesystem with no files and no directories. -/
def emptyFS : FS := ⟨fun _ => none, []⟩

/-- A filesystem whose input file's `num` column holds the largest int64. -/
def int64MaxFS : FS :=
  ⟨fun q => if q = "big.csv" then
      some [[CField.str "num"], [CField.int 9223372036854775807]]
    else none, []⟩

/-- A file that parses as a table but has no `num` column. -/
def noNumCsv : CSVFile :=
  [[CField.str "id", CField.str "val"],
   [CField.str "a", CField.int 10]]

/-- A filesystem holding `noNumCsv` at `"data.csv"`. -/
def noNumFS : FS :=
  ⟨fun q => if q = "data.csv" then some noNumCsv else none, []⟩

/-! ### Claim theorems -/

/-- C1 counterexample: the `num` column is int64, so at `2^63 - 1` the
program wraps to `-2^63` instead of producing `v + 1`: the run succeeds and
writes `-9223372036854775808`, which is not `9223372036854775807 + 1`. -/
theorem num_increment_wraps_at_int64_max :
    (run ⟨some "big.csv", none⟩ int64MaxFS).outcome = .ok () ∧
    (run ⟨some "big.csv", none⟩ int64MaxFS).fs.files "big.csv" =
      some [[CField.str "num"], [CField.int (-9223372036854775808)]] ∧
    ((-9223372036854775808 : Int) ≠ 9223372036854775807 + 1) :=
  ⟨by decide, by decide, by decide⟩

/-- C1 amended: for every valid input table whose `num` column holds int64
values `v_1..v_n`, one run leaves the file with `num` column values
`wrap64 (v_1+1)..wrap64 (v_n+1)` — which is `v+1` whenever `v + 1 < 2^63`,
and `-2^63` at `v = 2^63 - 1` — while every other column's values are
unchanged, and the run completes normally. -/
theorem run_increments_num_column (args : Args) (fs : FS) (p : String)
    (names : List String) (rows : List (List CField)) (i : Nat)
    (hp : args.input_data = some p)
    (hf : fs.files p = some (names.map CField.str :: rows))
    (hrect : ∀ r ∈ rows, r.length = names.length)
    (hi : colIdx "num" names = some i)
    (hnum : ∀ r ∈ rows, ∃ n, r[i]? = some (CField.int n)) :
    (∃ rows',
      (run args fs).fs.files p = some (names.map CField.str :: rows') ∧
      (run args fs).outcome = .ok () ∧
      List.Forall₂
        (fun r r' =>
          (∀ n, r[i]? = some (CField.int n) → r'[i]? = some (CField.int (wrap64 (n + 1)))) ∧
          ∀ j, j ≠ i → r'[j]? = r[j]?)
        rows rows') ∧
    ∀ n : Int, -(2 ^ 63) ≤ n → n + 1 < 2 ^ 63 → wrap64 (n + 1) = n + 1 := by
  obtain ⟨rows', hrows'⟩ := incRows_isOk i rows hnum
  have hfiles : (dirFS args fs).files p = some (names.map CField.str :: rows) := by
    rw [dirFS_files]
    exact hf
  have hrect' : ∀ r ∈ rows, r.length = (names.map CField.str).length := by
    simpa using hrect
  have hread : readCsv (dirFS args fs) p = .ok ⟨names, rows⟩ := by
    have hpc := parseCsv_ok (names.map CField.str) rows hrect'
    rw [map_showField_str] at hpc
    simp [readCsv, hfiles, hpc]
  have hinc : incrementNum ⟨names, rows⟩ = .ok ⟨names, rows'⟩ :=
    incrementNum_ok ⟨names, rows⟩ i rows' hi hrows'
  have hpp := processPhase_ok args (dirFS args fs) p ⟨names, rows⟩ ⟨names, rows'⟩ hp hread hinc
  refine ⟨⟨rows', ?_, ?_, ?_⟩, ?_⟩
  · rw [run_fs, hpp]
    simp [setFile, to_csv]
  · rw [run_outcome, hpp]
  · refine (incRows_forall₂ i rows rows' hrows').imp ?_
    rintro r r' ⟨n, hgn, rfl⟩
    constructor
    · intro m hm
      rw [hgn] at hm
      have hnm : n = m := by simpa using hm
      subst hnm
      exact List.getElem?_set_eq_of_lt _ (getElem?_some_lt hgn)
    · intro j hj
      exact List.getElem?_set_ne (Ne.symm hj)
  · intro n h1 h2
    unfold wrap64
    rw [Int.emod_eq_of_lt (by omega) (by omega)]
    omega

/-- C1 witness: the theorem evaluated on the concrete sample scenario. -/
theorem run_increments_num_column_witness :
    (∃ rows',
      (run ⟨some "data.csv", some "outdir"⟩ sampleFS).fs.files "data.csv" =
        some ((["id", "num"].map CField.str) :: rows') ∧
      (run ⟨some "data.csv", some "outdir"⟩ sampleFS).outcome = .ok () ∧
      List.Forall₂
        (fun r r' =>
          (∀ n, r[1]? = some (CField.int n) → r'[1]? = some (CField.int (wrap64 (n + 1)))) ∧
          ∀ j, j ≠ 1 → r'[j]? = r[j]?)
        [[CField.str "a", CField.int 10], [CField.str "b", CField.int 20]] rows') ∧
    ∀ n : Int, -(2 ^ 63) ≤ n → n + 1 < 2 ^ 63 → wrap64 (n + 1) = n + 1 :=
  run_increments_num_column ⟨some "data.csv", some "outdir"⟩ sampleFS "data.csv"
    ["id", "num"] [[CField.str "a", CField.int 10], [CField.str "b", CField.int 20]] 1
    rfl (by decide) (by decide) (by decide)
    (by
      intro r hr
      rcases List.mem_cons.mp hr with rfl | hr2
      · exact ⟨10, rfl⟩
      · rcases List.mem_cons.mp hr2 with rfl | hr3
        · exact ⟨20, rfl⟩
        · exact absurd hr3 (List.not_mem_nil r))

/-- C2: on a successful run the only path written is the input path
`input_data` itself (never a path under `output_train`): a `writeF` event
occurs exactly at the input path, a file now exists there, and every other
path's file is untouched. -/
theorem run_writes_to_input_path (args : Args) (fs : FS) (p : String)
    (hp : args.input_data = some p)
    (hok : (run args fs).outcome = .ok ()) :
    (∀ q, Ev.writeF q ∈ (run args fs).trace ↔ q = p) ∧
    (∃ c, (run args fs).fs.files p = some c) ∧
    (∀ q, q ≠ p → (run args fs).fs.files q = fs.files q) := by
  obtain ⟨p', t, t', hp', hr, hi, hpp⟩ :=
    processPhase_ok_inv args (dirFS args fs) (by rw [← run_outcome]; exact hok)
  obtain rfl : p' = p := by
    rw [hp] at hp'
    exact (Option.some.inj hp').symm
  refine ⟨?_, ⟨to_csv t' false, ?_⟩, ?_⟩
  · intro q
    rw [run_trace, hpp]
    cases ho : args.output_train <;> simp [banner, dirTrace, ho]
  · rw [run_fs, hpp]
    simp [setFile]
  · intro q hq
    rw [run_fs, hpp]
    simp [setFile, hq, dirFS_files]

/-- C2 witness: the theorem evaluated on the concrete sample scenario. -/
theorem run_writes_to_input_path_witness :
    (∀ q, Ev.writeF q ∈ (run ⟨some "data.csv", some "outdir"⟩ sampleFS).trace ↔
        q = "data.csv") ∧
    (∃ c, (run ⟨some "data.csv", some "outdir"⟩ sampleFS).fs.files "data.csv" = some c) ∧
    (∀ q, q ≠ "data.csv" →
      (run ⟨some "data.csv", some "outdir"⟩ sampleFS).fs.files q = sampleFS.files q) :=
  run_writes_to_input_path ⟨some "data.csv", some "outdir"⟩ sampleFS "data.csv"
    rfl (by decide)

/-- C3: when the input file parses as a table but has no `num` column, the
run dies with `KeyError`, no file anywhere is modified, and no write event
ever happens. -/
theorem missing_num_column_fatal (args : Args) (fs : FS) (p : String)
    (hrow : List CField) (rows : List (List CField))
    (hp : args.input_data = some p)
    (hf : fs.files p = some (hrow :: rows))
    (hrect : ∀ r ∈ rows, r.length = hrow.length)
    (hnum : "num" ∉ hrow.map showField) :
    (run args fs).outcome = .error .keyError ∧
    (run args fs).fs.files = fs.files ∧
    ∀ q, Ev.writeF q ∉ (run args fs).trace := by
  have hfiles : (dirFS args fs).files p = some (hrow :: rows) := by
    rw [dirFS_files]
    exact hf
  have hread : readCsv (dirFS args fs) p = .ok ⟨hrow.map showField, rows⟩ := by
    simp [readCsv, hfiles, parseCsv_ok hrow rows hrect]
  have hinc : incrementNum ⟨hrow.map showField, rows⟩ = .error .keyError :=
    incrementNum_keyErr _ ((colIdx_eq_none _ _).mpr hnum)
  have hpp := processPhase_incErr args (dirFS args fs) p ⟨hrow.map showField, rows⟩
    .keyError hp hread hinc
  refine ⟨?_, ?_, ?_⟩
  · rw [run_outcome, hpp]
  · rw [run_fs, hpp]
    exact dirFS_files args fs
  · intro q
    rw [run_trace, hpp]
    cases ho : args.output_train <;> simp [banner, dirTrace, ho]

/-- C3 witness: the theorem evaluated on a concrete file without a `num` column. -/
theorem missing_num_column_fatal_witness :
    (run ⟨some "data.csv", none⟩ noNumFS).outcome = .error .keyError ∧
    (run ⟨some "data.csv", none⟩ noNumFS).fs.files = noNumFS.files ∧
    ∀ q, Ev.writeF q ∉ (run ⟨some "data.csv", none⟩ noNumFS).trace :=
  missing_num_column_fatal ⟨some "data.csv", none⟩ noNumFS "data.csv"
    [CField.str "id", CField.str "val"] [[CField.str "a", CField.int 10]]
    rfl (by decide) (by decide) (by decide)

/-- C4: every successful run writes a file whose header row carries exactly
the input file's column names in the input order (same rendered names, same
length, so in particular no extra leading unnamed row-index column), and
every written data row has exactly one field per column. -/
theorem run_preserves_header_no_index_column (args : Args) (fs : FS)
    (hok : (run args fs).outcome = .ok ()) :
    ∃ p hrow rows rows',
      args.input_data = some p ∧
      fs.files p = some (hrow :: rows) ∧
      (run args fs).fs.files p = some (((hrow.map showField).map CField.str) :: rows') ∧
      ((hrow.map showField).map CField.str).map showField = hrow.map showField ∧
      ((hrow.map showField).map CField.str).length = hrow.length ∧
      rows'.length = rows.length ∧
      ∀ r' ∈ rows', r'.length = hrow.length := by
  obtain ⟨p, t, t', hp, hr, hi, hpp⟩ :=
    processPhase_ok_inv args (dirFS args fs) (by rw [← run_outcome]; exact hok)
  obtain ⟨f, hfp, hpf⟩ := readCsv_ok_inv _ _ _ hr
  obtain ⟨hrow, rows, rfl, rfl, hrect⟩ := parseCsv_ok_inv f t hpf
  obtain ⟨i, rows', hci, hirows, rfl⟩ := incrementNum_ok_inv _ t' hi
  have hfa := incRows_forall₂ i rows rows' hirows
  refine ⟨p, hrow, rows, rows', hp, ?_, ?_, map_showField_str _, by simp, ?_, ?_⟩
  · rw [dirFS_files] at hfp
    exact hfp
  · rw [run_fs, hpp]
    simp [setFile, to_csv]
  · exact hfa.length_eq.symm
  · intro r' hr'
    obtain ⟨r, hrmem, n, hgn, rfl⟩ := forall₂_mem_right hfa r' hr'
    rw [List.length_set]
    exact hrect r hrmem

/-- C4 witness: the theorem evaluated on the concrete sample scenario. -/
theorem run_preserves_header_no_index_column_witness :
    (run ⟨some "data.csv", some "outdir"⟩ sampleFS).outcome = .ok () ∧
    ∃ p hrow rows rows',
      (⟨some "data.csv", some "outdir"⟩ : Args).input_data = some p ∧
      sampleFS.files p = some (hrow :: rows) ∧
      (run ⟨some "data.csv", some "outdir"⟩ sampleFS).fs.files p =
        some (((hrow.map showField).map CField.str) :: rows') ∧
      ((hrow.map showField).map CField.str).map showField = hrow.map showField ∧
      ((hrow.map showField).map CField.str).length = hrow.length ∧
      rows'.length = rows.length ∧
      ∀ r' ∈ rows', r'.length = hrow.length :=
  ⟨by decide,
   run_preserves_header_no_index_column ⟨some "data.csv", some "outdir"⟩ sampleFS
     (by decide)⟩

/-- C5: the directory step is idempotent: when `output_train` already names an
existing directory, `os.makedirs(..., exist_ok=True)` leaves the filesystem
completely unchanged (so nothing in the directory is altered), and the run
does not fail there — it always goes on to print the read-phase message. -/
theorem makedirs_idempotent_on_existing (fs : FS) (d : String) (h : d ∈ fs.dirs) :
    makedirs d fs = fs ∧
    ∀ i_d, Ev.out (readMsg i_d) ∈ (run ⟨i_d, some d⟩ fs).trace := by
  constructor
  · unfold makedirs
    exact if_pos h
  · intro i_d
    rw [run_trace]
    exact List.mem_append.mpr (Or.inr
      (readMsg_mem_processPhase ⟨i_d, some d⟩ (dirFS ⟨i_d, some d⟩ fs)))

/-- C5 witness: the theorem evaluated on a filesystem where `"outdir"` exists. -/
theorem makedirs_idempotent_on_existing_witness :
    makedirs "outdir" sampleFS = sampleFS ∧
    ∀ i_d, Ev.out (readMsg i_d) ∈ (run ⟨i_d, some "outdir"⟩ sampleFS).trace :=
  makedirs_idempotent_on_existing sampleFS "outdir" (by decide)

/-- C6: with `output_train` unset the directory step is skipped entirely (no
directory appears, no `mkdir` action happens) while execution still reaches
the read phase; with `input_data` unset the run dies with a `TypeError` in
the read phase (after printing the read message as its last line) and no
file is touched. -/
theorem unset_arguments_behavior (fs : FS) (i_d ot : Option String) :
    ((run ⟨i_d, none⟩ fs).fs.dirs = fs.dirs ∧
     (∀ d, Ev.mkdir d ∉ (run ⟨i_d, none⟩ fs).trace) ∧
     Ev.out (readMsg i_d) ∈ (run ⟨i_d, none⟩ fs).trace) ∧
    ((run ⟨none, ot⟩ fs).outcome = .error .typeError ∧
     (run ⟨none, ot⟩ fs).fs.files = fs.files ∧
     lastOut (run ⟨none, ot⟩ fs).trace = some (readMsg none)) := by
  constructor
  · refine ⟨?_, ?_, ?_⟩
    · rw [run_fs]
      exact processPhase_dirs ⟨i_d, none⟩ fs
    · intro d
      rw [run_trace]
      intro hmem
      rcases List.mem_append.mp hmem with hb | hp2
      · simp [banner, dirTrace] at hb
      · exact mkdir_not_mem_processPhase _ _ d hp2
    · rw [run_trace]
      exact List.mem_append.mpr (Or.inr
        (readMsg_mem_processPhase ⟨i_d, none⟩ (dirFS ⟨i_d, none⟩ fs)))
  · have hpp := processPhase_noInput ⟨none, ot⟩ (dirFS ⟨none, ot⟩ fs) rfl
    refine ⟨?_, ?_, ?_⟩
    · rw [run_outcome, hpp]
    · rw [run_fs, hpp]
      exact dirFS_files _ fs
    · rw [run_trace, hpp]
      exact lastOut_append_out _ _

/-- C10: when `output_train` is supplied, the directory is created before the
input file is ever read: the directory exists in the final filesystem no
matter how the run ends, the `mkdir` action sits right after the banner in
the trace, and the banner contains no read action. -/
theorem dir_created_before_read (fs : FS) (i_d : Option String) (d : String) :
    d ∈ (run ⟨i_d, some d⟩ fs).fs.dirs ∧
    (∃ t2, (run ⟨i_d, some d⟩ fs).trace =
        banner ⟨i_d, some d⟩ ++ [Ev.mkdir d, Ev.out (d ++ " created")] ++ t2) ∧
    (∀ p, Ev.readF p ∉ banner ⟨i_d, some d⟩) := by
  refine ⟨?_, ⟨(processPhase ⟨i_d, some d⟩ (dirFS ⟨i_d, some d⟩ fs)).trace, ?_⟩, ?_⟩
  · rw [run_fs, processPhase_dirs]
    exact mem_dirs_makedirs d fs
  · rw [run_trace]
    rfl
  · intro p
    simp [banner]

/-- Sanity check: the spec's concrete scenario (`num` column `[10, 20]`
becomes `[11, 21]` in place, header untouched). -/
theorem sample_scenario_increment :
    (run ⟨some "d.csv", none⟩
      ⟨fun q => if q = "d.csv" then
          some [[CField.str "id", CField.str "num"],
                [CField.str "a", CField.int 10], [CField.str "b", CField.int 20]]
        else none, []⟩).fs.files "d.csv" =
      some [[CField.str "id", CField.str "num"],
            [CField.str "a", CField.int 11], [CField.str "b", CField.int 21]] := by decide

/-- C7 counterexample: in a concrete run the `mkdir` action happens with no
`"outdir created"` line printed before it — the directory phase acts first
and prints second, contradicting "every phase prints its status message
before performing the phase's action". -/
theorem phase_prints_before_acting_cex :
    ∃ t1 t2,
      (run ⟨some "data.csv", some "outdir"⟩ sampleFS).trace =
        t1 ++ [Ev.mkdir "outdir"] ++ t2 ∧
      Ev.out "outdir created" ∉ t1 ∧
      Ev.out "outdir created" ∈ t2 :=
  ⟨[.out "In train.py", .out "As a data scientist, this is where I use my training code.",
    .out "Argument 1: data.csv", .out "Argument 2: outdir"],
   [.out "outdir created", .out "read data from the given input_data, data.csv",
    .readF "data.csv", .out "write data to the output_data, data.csv",
    .writeF "data.csv", .out "training is done"],
   by decide, by decide, by decide⟩

/-- C7 amended: the read phase and the write phase each print their status
message immediately before performing the action, but the directory-creation
phase performs `os.makedirs` before printing its confirmation, and the
increment step prints no message of its own. -/
theorem phase_messages_adjacent_to_actions (args : Args) (fs : FS) :
    (∀ p, Ev.readF p ∈ (run args fs).trace →
      ∃ t1 t2, (run args fs).trace =
        t1 ++ [Ev.out (readMsg args.input_data), Ev.readF p] ++ t2) ∧
    (∀ p, Ev.writeF p ∈ (run args fs).trace →
      ∃ t1 t2, (run args fs).trace =
        t1 ++ [Ev.out (writeMsg p), Ev.writeF p] ++ t2) ∧
    (∀ d, Ev.mkdir d ∈ (run args fs).trace →
      ∃ t1 t2, (run args fs).trace =
        t1 ++ [Ev.mkdir d, Ev.out (d ++ " created")] ++ t2) := by
  refine ⟨?_, ?_, ?_⟩
  · intro p hmem
    rw [run_trace] at hmem
    rcases List.mem_append.mp hmem with hb | hpt
    · exact absurd hb (readF_not_mem_front args p)
    · rcases processPhase_trace_shape args (dirFS args fs) with ht | ⟨q, hq, ht⟩ | ⟨q, hq, ht⟩
      · rw [ht] at hpt
        simp at hpt
      · rw [ht] at hpt
        simp at hpt
        rw [hpt]
        refine ⟨banner args ++ dirTrace args, [], ?_⟩
        rw [run_trace, ht]
        simp
      · rw [ht] at hpt
        simp at hpt
        rw [hpt]
        refine ⟨banner args ++ dirTrace args,
          [Ev.out (writeMsg q), Ev.writeF q, Ev.out "training is done"], ?_⟩
        rw [run_trace, ht]
        simp [List.append_assoc]
  · intro p hmem
    rw [run_trace] at hmem
    rcases List.mem_append.mp hmem with hb | hpt
    · exact absurd hb (writeF_not_mem_front args p)
    · rcases processPhase_trace_shape args (dirFS args fs) with ht | ⟨q, hq, ht⟩ | ⟨q, hq, ht⟩
      · rw [ht] at hpt
        simp at hpt
      · rw [ht] at hpt
        simp at hpt
      · rw [ht] at hpt
        simp at hpt
        rw [hpt]
        refine ⟨banner args ++ dirTrace args ++ [Ev.out (readMsg args.input_data), Ev.readF q],
          [Ev.out "training is done"], ?_⟩
        rw [run_trace, ht]
        simp [List.append_assoc]
  · intro d hmem
    rw [run_trace] at hmem
    rcases List.mem_append.mp hmem with hb | hpt
    · rcases List.mem_append.mp hb with hbb | hbd
      · simp [banner] at hbb
      · cases ho : args.output_train with
        | none => simp [dirTrace, ho] at hbd
        | some d0 =>
          simp [dirTrace, ho] at hbd
          rw [hbd]
          refine ⟨banner args, (processPhase args (dirFS args fs)).trace, ?_⟩
          rw [run_trace]
          simp [dirTrace, ho, List.append_assoc]
    · exact absurd hpt (mkdir_not_mem_processPhase _ _ d)

/-- C7 amended witness: the write-message/write-action adjacency of the
theorem instantiated on a concrete successful run. -/
theorem phase_messages_adjacent_to_actions_witness :
    ∃ t1 t2, (run ⟨some "data.csv", some "outdir"⟩ sampleFS).trace =
      t1 ++ [Ev.out (writeMsg "data.csv"), Ev.writeF "data.csv"] ++ t2 :=
  (phase_messages_adjacent_to_actions ⟨some "data.csv", some "outdir"⟩ sampleFS).2.1
    "data.csv" (by decide)

/-- C8 counterexample: a concrete fully successful run with `output_train`
unset prints seven status lines, not six. -/
theorem six_status_lines_cex :
    (run ⟨some "data.csv", none⟩ sampleFS).outcome = .ok () ∧
    countOuts (run ⟨some "data.csv", none⟩ sampleFS).trace = 7 ∧
    ¬ countOuts (run ⟨some "data.csv", none⟩ sampleFS).trace = 6 :=
  ⟨by decide, by decide, by decide⟩

/-- C8 amended: a fully successful run prints exactly seven status lines
when `output_train` is unset and exactly eight when it is set. -/
theorem successful_run_status_line_count (args : Args) (fs : FS)
    (hok : (run args fs).outcome = .ok ()) :
    countOuts (run args fs).trace =
      match args.output_train with
      | none => 7
      | some _ => 8 := by
  obtain ⟨p, t, t', hp, hr, hi, hpp⟩ :=
    processPhase_ok_inv args (dirFS args fs) (by rw [← run_outcome]; exact hok)
  rw [run_trace, hpp]
  cases ho : args.output_train <;>
    simp [countOuts, outs, banner, dirTrace, ho, List.filterMap_append]

/-- C8 amended witness: the theorem evaluated on the concrete sample scenario. -/
theorem successful_run_status_line_count_witness :
    countOuts (run ⟨some "data.csv", none⟩ sampleFS).trace =
      match (⟨some "data.csv", none⟩ : Args).output_train with
      | none => 7
      | some _ => 8 :=
  successful_run_status_line_count ⟨some "data.csv", none⟩ sampleFS (by decide)

/-- C9: `output_train` never influences the produced file: two successful
runs on the same `input_data` path holding the same file contents, with any
two `output_train` values and even different surrounding filesystems, write
the same bytes at the same path (and their write events hit the same paths). -/
theorem output_independent_of_output_train (p : String) (c : CSVFile)
    (fs1 fs2 : FS) (ot1 ot2 : Option String)
    (h1 : fs1.files p = some c) (h2 : fs2.files p = some c)
    (hok : (run ⟨some p, ot1⟩ fs1).outcome = .ok ()) :
    (run ⟨some p, ot2⟩ fs2).outcome = .ok () ∧
    (run ⟨some p, ot1⟩ fs1).fs.files p = (run ⟨some p, ot2⟩ fs2).fs.files p ∧
    ∀ q, (Ev.writeF q ∈ (run ⟨some p, ot1⟩ fs1).trace ↔
          Ev.writeF q ∈ (run ⟨some p, ot2⟩ fs2).trace) := by
  obtain ⟨p', t, t', hp', hr, hi, hpp1⟩ :=
    processPhase_ok_inv ⟨some p, ot1⟩ (dirFS ⟨some p, ot1⟩ fs1)
      (by rw [← run_outcome]; exact hok)
  obtain rfl : p = p' := Option.some.inj hp'
  obtain ⟨f, hfp, hpf⟩ := readCsv_ok_inv _ _ _ hr
  rw [dirFS_files_at] at hfp
  obtain rfl : c = f := Option.some.inj (h1.symm.trans hfp)
  have hread2 : readCsv (dirFS ⟨some p, ot2⟩ fs2) p = .ok t := by
    unfold readCsv
    rw [dirFS_files_at, h2]
    exact hpf
  have hpp2 := processPhase_ok ⟨some p, ot2⟩ (dirFS ⟨some p, ot2⟩ fs2) p t t' rfl hread2 hi
  refine ⟨?_, ?_, ?_⟩
  · rw [run_outcome, hpp2]
  · rw [run_fs, run_fs, hpp1, hpp2]
    simp [setFile]
  · intro q
    rw [run_trace, run_trace, hpp1, hpp2]
    cases ot1 <;> cases ot2 <;> simp [banner, dirTrace]

/-- C9 witness: the theorem evaluated on two concrete filesystems holding the
same sample file, one run with `output_train` set and one without. -/
theorem output_independent_of_output_train_witness :
    (run ⟨some "data.csv", none⟩ sampleFS2).outcome = .ok () ∧
    (run ⟨some "data.csv", some "outdir"⟩ sampleFS).fs.files "data.csv" =
      (run ⟨some "data.csv", none⟩ sampleFS2).fs.files "data.csv" ∧
    ∀ q, (Ev.writeF q ∈ (run ⟨some "data.csv", some "outdir"⟩ sampleFS).trace ↔
          Ev.writeF q ∈ (run ⟨some "data.csv", none⟩ sampleFS2).trace) :=
  output_independent_of_output_train "data.csv" sampleCsv sampleFS sampleFS2
    (some "outdir") none (by decide) (by decide) (by decide)
